import Mathlib

/-!
Verification of the token lifecycle and caching engine of the
github-for-jira authentication layer, together with the GraphQL error
classification, retry, pagination and repository-id transformation logic
of `GitHubAppClient`.

Components whose TypeScript source is present (`github-app-client.ts`,
`transform-repository-id.ts`) are embedded directly from the source.
`AppTokenHolder`, `InstallationTokenCache` and `AuthToken` are only
referenced by the sources at hand (client and tests); their behaviour is
modelled from the specification and marked as such.
-/

namespace GithubForJira

/-- An immutable bearer token paired with its absolute expiry instant
(milliseconds since the epoch). -/
structure AuthToken where
  token : String
  expiresAt : Int
deriving DecidableEq

/-- Modelled from the spec: `AuthToken.isAboutToExpire` from
`auth-token.ts` is not under src/. The spec describes a pure comparison
`now + margin >= expiresAt`: a token is treated as expired slightly
before its literal expiry. -/
def AuthToken.isAboutToExpire (now margin : Int) (t : AuthToken) : Bool :=
  decide (now + margin ≥ t.expiresAt)

/-- Validity horizon of an app token: ten minutes, in milliseconds
(spec: a short horizon, e.g. 10 minutes; the test expects a fresh token
after 10 minutes). -/
def appTokenValidityMs : Int := 10 * 60 * 1000

/-- Modelled from the spec: the safety margin is a named constant, a
buffer subtracted from a token's literal expiry. Sixty seconds, in
milliseconds; any positive value below five minutes is consistent with
the test in `app-token-holder.test.ts`. -/
def appTokenSafetyMarginMs : Int := 60 * 1000

/-- Modelled from the spec: `AppTokenHolder` from `app-token-holder.ts`
is not under src/. It holds the app identity (app id and private signing
key) and at most one cached app token. -/
structure AppTokenHolder where
  appId : String
  privateKey : String
  currentToken : Option AuthToken
deriving DecidableEq

/-- Modelled from the spec: the signing operation is an asymmetric
signature over a claims set containing issued-at, expires-at and the app
identifier. It is modelled as an opaque-to-callers string determined by
the key material, the app id and the issuing instant; two tokens signed
at different instants differ. -/
def signAppToken (appId privateKey : String) (now : Int) : AuthToken :=
  { token := "signed:" ++ privateKey ++ ":" ++ appId ++ ":" ++ toString now
    expiresAt := now + appTokenValidityMs }

/-- Modelled from the spec: `getAppToken` returns the cached token
unchanged while it is not about to expire, and otherwise synchronously
signs a fresh token, caches it and returns it. The returned pair is the
token together with the holder state after the call. -/
def AppTokenHolder.getAppToken (h : AppTokenHolder) (now : Int) :
    AuthToken × AppTokenHolder :=
  match h.currentToken with
  | some t =>
    if t.isAboutToExpire now appTokenSafetyMarginMs then
      let t' := signAppToken h.appId h.privateKey now
      (t', { h with currentToken := some t' })
    else
      (t, h)
  | none =>
    let t' := signAppToken h.appId h.privateKey now
    (t', { h with currentToken := some t' })

/-! ### InstallationTokenCache: coalescing model

Modelled from the spec: `installation-token-cache.ts` is not under src/.
The spec prescribes a tagged-variant cache entry
`{absent, pending(sharedFuture), present(token)}` per installation id,
with the pending operation registered synchronously at the moment of a
cache miss, before any suspension point, and cleared on completion.
Under the spec's single-threaded cooperative scheduling, an execution is
a sequence of atomic events: a caller arriving, the in-flight fetch
resolving, or the in-flight fetch rejecting. -/

/-- The cache entry for one installation id: absent, pending with the
list of coalesced waiters (most recent first), or present. -/
inductive EntryState where
  | absent : EntryState
  | pending (waiters : List Nat) : EntryState
  | present (tok : AuthToken) : EntryState
deriving DecidableEq

/-- A cold entry offers no valid cached token and has no fetch in
flight: it is absent, or holds a token that is about to expire. -/
def EntryState.isCold (e : EntryState) (now margin : Int) : Bool :=
  match e with
  | .absent => true
  | .pending _ => false
  | .present t => t.isAboutToExpire now margin

/-- Observable state of the cache for one installation id: the entry,
the number of times `fetchFn` has been invoked, and the outcomes
delivered to callers (token resolutions and error rejections, most
recent first). -/
structure CacheState where
  entry : EntryState
  fetchCount : Nat
  resolvedAs : List (Nat × AuthToken)
  rejectedAs : List (Nat × String)
deriving DecidableEq

/-- Atomic events of the cooperative schedule: a caller invoking
`getInstallationToken` at an instant, the in-flight fetch fulfilling
with a token, or the in-flight fetch rejecting with an error. -/
inductive CacheEvent where
  | call (caller : Nat) (now : Int) : CacheEvent
  | fulfill (tok : AuthToken) : CacheEvent
  | reject (e : String) : CacheEvent
deriving DecidableEq

/-- Modelled from the spec: one atomic step of the cache. A caller
hitting a valid entry resolves immediately; a caller hitting a pending
entry joins the waiters without invoking `fetchFn`; a caller hitting an
absent or expired entry invokes `fetchFn` and registers the pending
operation in the same step. Fulfilment stores the token and resolves
every waiter with it; rejection clears the entry (nothing is cached for
a failed fetch) and rejects every waiter with the error. -/
def cacheStep (margin : Int) (s : CacheState) (ev : CacheEvent) : CacheState :=
  match ev with
  | .call c now =>
    match s.entry with
    | .present t =>
      if t.isAboutToExpire now margin then
        { s with entry := .pending [c], fetchCount := s.fetchCount + 1 }
      else
        { s with resolvedAs := (c, t) :: s.resolvedAs }
    | .pending ws => { s with entry := .pending (c :: ws) }
    | .absent => { s with entry := .pending [c], fetchCount := s.fetchCount + 1 }
  | .fulfill tok =>
    match s.entry with
    | .pending ws =>
      { s with
        entry := .present tok
        resolvedAs := ws.map (fun c => (c, tok)) ++ s.resolvedAs }
    | _ => s
  | .reject e =>
    match s.entry with
    | .pending ws =>
      { s with
        entry := .absent
        rejectedAs := ws.map (fun c => (c, e)) ++ s.rejectedAs }
    | _ => s

/-- Run a sequence of cache events from a state. -/
def cacheRun (margin : Int) (s : CacheState) (evs : List CacheEvent) : CacheState :=
  evs.foldl (cacheStep margin) s

/-! ### InstallationTokenCache: bounded LRU storage

Modelled from the spec: the bounded storage backing the cache (the
constructor takes a maximum entry count, `new InstallationTokenCache(1000)`
in the test) is not under src/. The spec prescribes a bounded cache with
a least-recently-used eviction policy. The map is a list of key/token
pairs ordered by access recency, most recently accessed first. -/

/-- Insert (or refresh) a key. The key moves to the front; when the
result would exceed the capacity, entries are kept from the
most-recently-accessed end, dropping the least-recently-accessed. -/
def lruSet (maxSize : Nat) (m : List (Nat × AuthToken)) (k : Nat)
    (v : AuthToken) : List (Nat × AuthToken) :=
  ((k, v) :: m.filter (fun p => p.1 != k)).take maxSize

/-- Look a key up; a hit moves the key to the front (it becomes the most
recently accessed). -/
def lruGet (m : List (Nat × AuthToken)) (k : Nat) :
    Option AuthToken × List (Nat × AuthToken) :=
  match m.find? (fun p => p.1 == k) with
  | some kv => (some kv.2, (k, kv.2) :: m.filter (fun p => p.1 != k))
  | none => (none, m)

/-! ### GraphQL error classification (from `github-app-client.ts`) -/

/-- One entry of the `errors` array of a GraphQL response body. -/
structure GraphQLErrorEntry where
  type : Option String
  message : String
deriving DecidableEq

/-- Outcome of `GitHubAppClient.graphql`: the resolved response, or one
of the two rejection kinds (`RateLimitingError` carrying the original
response, `GithubClientGraphQLError` carrying a message and the raw
errors). -/
inductive GraphqlOutcome (ρ : Type) where
  | ok (resp : ρ) : GraphqlOutcome ρ
  | rateLimited (resp : ρ) : GraphqlOutcome ρ
  | graphQLError (message : String) (errors : List GraphQLErrorEntry) : GraphqlOutcome ρ
deriving DecidableEq

/-- The message of a `GithubClientGraphQLError`, from the source:
`graphqlErrors[0].message + (graphqlErrors.length > 1 ?
" and (length-1) more errors" : "")`. -/
def graphqlErrorMessage (errors : List GraphQLErrorEntry) : String :=
  match errors with
  | [] => ""
  | e :: rest =>
    e.message ++
      (if rest.length ≥ 1 then
        " and " ++ toString rest.length ++ " more errors"
      else "")

/-- Error handling of `GitHubAppClient.graphql`, from the source: when
the response body carries a non-empty `errors` array, reject with
`RateLimitingError` if some entry has type RATE_LIMITED, else reject
with `GithubClientGraphQLError`; otherwise resolve with the response.
`errors = none` models an absent `errors` field. -/
def graphqlClassify {ρ : Type} (resp : ρ)
    (errors : Option (List GraphQLErrorEntry)) : GraphqlOutcome ρ :=
  match errors with
  | some es =>
    if es.length ≠ 0 then
      if es.any (fun err => err.type == some ("RATE_LIMITED")) then
        .rateLimited resp
      else
        .graphQLError (graphqlErrorMessage es) es
    else .ok resp
  | none => .ok resp

/-! ### changedFiles retry (from `github-app-client.ts`) -/

/-- The two query bodies used by `getBranchesPage` and `getCommitsPage`:
the primary query with the `changedFiles` field, and the alternate query
omitting it. -/
inductive QueryBody where
  | withChangedFiles : QueryBody
  | withoutChangedFiles : QueryBody
deriving DecidableEq

/-- The `.catch` retry logic shared by `getBranchesPage` and
`getCommitsPage`, from the source: run the query with `changedFiles`;
on failure, rethrow unless `isChangedFilesError` recognises the error,
in which case run the query without `changedFiles` once and return its
outcome as is. `exec` is the graphql call for each query body; `isCF`
is the `isChangedFilesError` predicate (its definition lives in
`github-client-errors.ts`, outside src/, so it is kept abstract).
Returns the outcome together with the query bodies attempted, in
order. -/
def getPageWithRetry {ρ ε : Type} (isCF : ε → Bool)
    (exec : QueryBody → Except ε ρ) : Except ε ρ × List QueryBody :=
  match exec .withChangedFiles with
  | .ok r => (.ok r, [.withChangedFiles])
  | .error e =>
    if isCF e then
      (exec .withoutChangedFiles, [.withChangedFiles, .withoutChangedFiles])
    else
      (.error e, [.withChangedFiles])

/-! ### Client authentication composition (from `github-app-client.ts`) -/

/-- The request headers attached by the client. -/
structure RequestHeaders where
  accept : String
  authorization : String
deriving DecidableEq

/-- An outbound request to the token-exchange endpoint. -/
structure ExchangeRequest where
  method : String
  path : String
  headers : RequestHeaders
deriving DecidableEq

/-- The body of a successful token-exchange response
(`Octokit.AppsCreateInstallationTokenResponse`): the token string and
the `expires_at` instant. -/
structure TokenExchangeResponse where
  token : String
  expires_at : Int
deriving DecidableEq

/-- From the source `appAuthenticationHeaders`: the app token from
`AppTokenHolder` is attached directly as the bearer credential. Returns
the headers together with the holder state after the call. -/
def appAuthenticationHeaders (h : AppTokenHolder) (now : Int) :
    RequestHeaders × AppTokenHolder :=
  let r := h.getAppToken now
  ({ accept := "application/vnd.github.v3+json"
     authorization := "Bearer " ++ r.1.token }, r.2)

/-- From the source `createInstallationToken`: POST to
`/app/installations/(id)/access_tokens` with the app-authentication
headers, and build an `AuthToken` from the response's `token` and
`expires_at`. `net` models the network: it maps the request to the
response body. Returns the token, the request issued, and the holder
state. -/
def createInstallationToken (net : ExchangeRequest → TokenExchangeResponse)
    (h : AppTokenHolder) (now : Int) (githubInstallationId : Nat) :
    AuthToken × ExchangeRequest × AppTokenHolder :=
  let hdrs := appAuthenticationHeaders h now
  let req : ExchangeRequest :=
    { method := "POST"
      path := "/app/installations/" ++ toString githubInstallationId ++
        "/access_tokens"
      headers := hdrs.1 }
  let resp := net req
  ({ token := resp.token, expiresAt := resp.expires_at }, req, hdrs.2)

/-- Modelled from the spec: the single-caller behaviour of
`getInstallationToken` — return a valid cached token without invoking
`fetchFn`, otherwise invoke `fetchFn` and cache its result. Returns the
token and the entry after the call. -/
def getInstallationTokenSeq (margin now : Int) (entry : Option AuthToken)
    (fetchFn : Unit → AuthToken) : AuthToken × Option AuthToken :=
  match entry with
  | some t =>
    if t.isAboutToExpire now margin then
      let nt := fetchFn ()
      (nt, some nt)
    else (t, some t)
  | none =>
    let nt := fetchFn ()
    (nt, some nt)

/-- From the source `installationAuthenticationHeaders`: obtain the
installation token from the installation token cache, with `fetchFn`
set to `createInstallationToken` for this installation id, and attach
it as the bearer credential. -/
def installationAuthenticationHeaders
    (net : ExchangeRequest → TokenExchangeResponse) (h : AppTokenHolder)
    (margin now : Int) (entry : Option AuthToken)
    (githubInstallationId : Nat) : RequestHeaders × Option AuthToken :=
  let fetchFn := fun _ =>
    (createInstallationToken net h now githubInstallationId).1
  let r := getInstallationTokenSeq margin now entry fetchFn
  ({ accept := "application/vnd.github.v3+json"
     authorization := "Bearer " ++ r.1.token }, r.2)

/-! ### Pagination (from `github-app-client.ts`) -/

/-- Whether the character sequence `pat` occurs at the start of `s`. -/
def listStartsWith : List Char → List Char → Bool
  | [], _ => true
  | _ :: _, [] => false
  | a :: pat, b :: s => a == b && listStartsWith pat s

/-- Whether the character sequence `pat` occurs anywhere inside `s`
(the semantics of JavaScript `String.prototype.includes`). -/
def listContainsSeq (pat : List Char) : List Char → Bool
  | [] => pat.isEmpty
  | b :: s => listStartsWith pat (b :: s) || listContainsSeq pat s

/-- JavaScript `s.includes(pat)`. -/
def strIncludes (s pat : String) : Bool :=
  listContainsSeq pat.data s.data

/-- A response to the repositories-page request: the payload and the
`link` header (absent when the server sent none). -/
structure ReposPageResponse where
  repositories : List String
  link : Option String
deriving DecidableEq

/-- The result of `getRepositoriesPage`: the payload plus the
`hasNextPage` flag. -/
structure ReposPageResult where
  repositories : List String
  hasNextPage : Bool
deriving DecidableEq

/-- From the source `getRepositoriesPage`:
`hasNextPage = !!response?.headers.link?.includes("rel=\"next\"")`. -/
def getRepositoriesPage (resp : ReposPageResponse) : ReposPageResult :=
  { repositories := resp.repositories
    hasNextPage :=
      match resp.link with
      | some l => strIncludes l ("rel=\"next\"")
      | none => false }

/-! ### Repository id transformation (from `transform-repository-id.ts`) -/

/-- The result of `new URL(url)` for the parts the source reads: `host`
(including the port) and `pathname`. URL parsing itself is a platform
builtin and is taken as given. -/
structure ParsedUrl where
  host : String
  pathname : String
deriving DecidableEq

/-- The lower-case hexadecimal digit of a value below sixteen. -/
def hexDigit (n : Nat) : Char :=
  if n < 10 then Char.ofNat (48 + n) else Char.ofNat (87 + n)

/-- Hexadecimal encoding of a byte sequence, two digits per byte
(`Buffer.toString('hex')`). -/
def hexEncode (bytes : List Nat) : List Char :=
  bytes.flatMap (fun b => [hexDigit (b / 16 % 16), hexDigit (b % 16)])

/-- From the source `calculatePrefix`: lower-case `host + pathname`,
strip every character outside `[A-Za-z0-9]` (the regex `[\W_]` removes
non-alphanumerics and the underscore), hex-encode the bytes and truncate
to 512 characters. Every kept character is ASCII, so its UTF-8 encoding
is its code point. -/
def calculatePrefix (u : ParsedUrl) : String :=
  let cleaned :=
    ((u.host ++ u.pathname).data.map Char.toLower).filter Char.isAlphanum
  String.mk ((hexEncode (cleaned.map Char.toNat)).take 512)

/-- `GITHUB_CLOUD_BASEURL` (defined outside src/) is the GitHub cloud
base URL; parsed, its host is github.com and its pathname is the root
path. -/
def githubCloudParsedUrl : ParsedUrl :=
  { host := "github.com", pathname := "/" }

/-- From the source `transformRepositoryId`. The feature flag
`USE_REPO_ID_TRANSFORMER` is read through `booleanFlag` (outside src/)
and is passed in as a boolean; `gitHubBaseUrl` is `none` for cloud. -/
def transformRepositoryId (useRepoIdTransformer : Bool)
    (repositoryId : Nat) (gitHubBaseUrl : Option ParsedUrl) : String :=
  if !useRepoIdTransformer then
    toString repositoryId
  else
    match gitHubBaseUrl with
    | none => toString repositoryId
    | some u =>
      if calculatePrefix u == calculatePrefix githubCloudParsedUrl then
        toString repositoryId
      else
        calculatePrefix u ++ "-" ++ toString repositoryId

/-- The event trace of the coalescing scenarios: a first caller, further
concurrent callers, and finally the completion of the in-flight fetch. -/
def coalesceTrace (c₀ : Nat) (now₀ : Int) (calls : List (Nat × Int))
    (last : CacheEvent) : List CacheEvent :=
  ((c₀, now₀) :: calls).map (fun p => CacheEvent.call p.1 p.2) ++ [last]

/-! ## Theorems -/

/-- After any call to `getAppToken`, the cached token is the returned
token. -/
theorem getAppToken_caches (h : AppTokenHolder) (now : Int) :
    (h.getAppToken now).2.currentToken = some (h.getAppToken now).1 := by
  cases hc : h.currentToken with
  | none => simp [AppTokenHolder.getAppToken, hc]
  | some t =>
    by_cases hx : t.isAboutToExpire now appTokenSafetyMarginMs
    · simp [AppTokenHolder.getAppToken, hc, hx]
    · simp [AppTokenHolder.getAppToken, hc, hx]


/-- A cache hit: a holder whose cached token is not about to expire
returns it unchanged, without touching its state. -/
theorem getAppToken_hit (g : AppTokenHolder) (t : AuthToken) (now : Int)
    (hc : g.currentToken = some t)
    (hx : t.isAboutToExpire now appTokenSafetyMarginMs = false) :
    g.getAppToken now = (t, g) := by
  simp [AppTokenHolder.getAppToken, hc, hx]

/-- Claim C2 (amended): while `now + safety margin` is still below the
`expiresAt` of the token returned by a prior `getAppToken` call — that
is, within the validity horizon minus the safety margin after the
signing of that token — `getAppToken` returns the same token string,
returning the cached token unchanged without re-signing (the holder
state is also unchanged). -/
theorem appToken_reuse_within_validity (h : AppTokenHolder) (now₀ now₁ : Int)
    (hwithin : now₁ + appTokenSafetyMarginMs <
      ((h.getAppToken now₀).1).expiresAt) :
    (h.getAppToken now₀).2.getAppToken now₁ =
      ((h.getAppToken now₀).1, (h.getAppToken now₀).2) := by
  have hx : ((h.getAppToken now₀).1).isAboutToExpire now₁
      appTokenSafetyMarginMs = false := by
    simp only [AuthToken.isAboutToExpire, decide_eq_false_iff_not]
    omega
  exact getAppToken_hit _ _ _ (getAppToken_caches h now₀) hx

/-- Claim C2 witness: a concrete holder, first call at instant 0, second
call at instant 300000 (five minutes later), well within the ten-minute
horizon minus the one-minute margin. -/
theorem appToken_reuse_within_validity_witness :
    (AppTokenHolder.getAppToken ⟨"42", "key", none⟩ 0).2.getAppToken 300000 =
      ((AppTokenHolder.getAppToken ⟨"42", "key", none⟩ 0).1,
        (AppTokenHolder.getAppToken ⟨"42", "key", none⟩ 0).2) :=
  appToken_reuse_within_validity ⟨"42", "key", none⟩ 0 300000 (by decide)

/-- Claim C2 counterexample: the claim as stated measures the reuse
window from any prior call, not from the signing of the token. Sign at
instant 0; a call at instant 500000 returns the cached token; a further
call at instant 560000 — only 60000 ms after that prior call, well
within the horizon (600000 ms) minus the margin (60000 ms) — re-signs
and returns a different token string, because the cached token's
expiry (600000) is measured from its signing, not from the prior
call. -/
theorem appToken_reuse_counterexample :
    ((AppTokenHolder.getAppToken ⟨"42", "key", none⟩ 0).2.getAppToken
        500000).1.token =
      (AppTokenHolder.getAppToken ⟨"42", "key", none⟩ 0).1.token ∧
    (560000 : Int) - 500000 < appTokenValidityMs - appTokenSafetyMarginMs ∧
    (((AppTokenHolder.getAppToken ⟨"42", "key", none⟩ 0).2.getAppToken
        500000).2.getAppToken 560000).1.token ≠
      ((AppTokenHolder.getAppToken ⟨"42", "key", none⟩ 0).2.getAppToken
        500000).1.token := by
  refine ⟨by decide, by decide, by decide⟩

/-- Running caller arrivals over a pending entry only accumulates
waiters: no fetch is invoked, no outcome is delivered. -/
theorem cacheRun_calls_pending (margin : Int) (calls : List (Nat × Int))
    (s : CacheState) (ws : List Nat) (hs : s.entry = .pending ws) :
    cacheRun margin s (calls.map (fun p => CacheEvent.call p.1 p.2)) =
      { s with entry := .pending ((calls.map Prod.fst).reverse ++ ws) } := by
  induction calls generalizing s ws with
  | nil =>
    simp only [List.map_nil, cacheRun, List.foldl_nil, List.reverse_nil,
      List.nil_append]
    cases s
    simp_all
  | cons c cs ih =>
    have hstep : cacheStep margin s (CacheEvent.call c.1 c.2) =
        { s with entry := .pending (c.1 :: ws) } := by
      simp [cacheStep, hs]
    have := ih { s with entry := .pending (c.1 :: ws) } (c.1 :: ws) rfl
    simp only [List.map_cons, cacheRun, List.foldl_cons] at this ⊢
    rw [hstep, this]
    simp [List.append_assoc]

/-- A caller arriving at a cold entry registers the pending fetch and
invokes `fetchFn` in the same atomic step. -/
theorem cacheStep_cold (margin : Int) (s : CacheState) (c : Nat) (now : Int)
    (hcold : s.entry.isCold now margin = true) :
    cacheStep margin s (.call c now) =
      { s with entry := .pending [c], fetchCount := s.fetchCount + 1 } := by
  cases he : s.entry with
  | absent => simp [cacheStep, he]
  | pending ws => simp [EntryState.isCold, he] at hcold
  | present t =>
    have hx : t.isAboutToExpire now margin = true := by
      simpa [EntryState.isCold, he] using hcold
    simp [cacheStep, he, hx]

/-- Claim C1: when the entry for an installation id is cold (absent or
expired) and any number of further callers arrive while the fetch is in
flight, `fetchFn` is invoked exactly once, every one of the callers
resolves to the fetched token, no caller observes a failure, and the
token is cached. -/
theorem installation_token_cache_coalesces (margin : Int) (s₀ : CacheState)
    (c₀ : Nat) (now₀ : Int) (calls : List (Nat × Int)) (tok : AuthToken)
    (hcold : s₀.entry.isCold now₀ margin = true) :
    (cacheRun margin s₀ (coalesceTrace c₀ now₀ calls
        (CacheEvent.fulfill tok))).fetchCount = s₀.fetchCount + 1 ∧
    (cacheRun margin s₀ (coalesceTrace c₀ now₀ calls
        (CacheEvent.fulfill tok))).resolvedAs =
      (((c₀, now₀) :: calls).map (fun p => (p.1, tok))).reverse ++
        s₀.resolvedAs ∧
    (cacheRun margin s₀ (coalesceTrace c₀ now₀ calls
        (CacheEvent.fulfill tok))).rejectedAs = s₀.rejectedAs ∧
    (cacheRun margin s₀ (coalesceTrace c₀ now₀ calls
        (CacheEvent.fulfill tok))).entry = .present tok := by
  have h₁ := cacheStep_cold margin s₀ c₀ now₀ hcold
  have h₂ := cacheRun_calls_pending margin calls
    { s₀ with entry := .pending [c₀], fetchCount := s₀.fetchCount + 1 }
    [c₀] rfl
  have key : cacheRun margin s₀ (coalesceTrace c₀ now₀ calls
      (CacheEvent.fulfill tok)) =
      cacheStep margin (cacheRun margin
        (cacheStep margin s₀ (CacheEvent.call c₀ now₀))
        (calls.map (fun p => CacheEvent.call p.1 p.2)))
        (CacheEvent.fulfill tok) := by
    simp only [coalesceTrace, List.map_cons, cacheRun, List.foldl_append,
      List.foldl_cons, List.foldl_nil]
  rw [key, h₁, h₂]
  refine ⟨?_, ?_, ?_, ?_⟩ <;>
    simp [cacheStep, List.map_reverse, List.map_map, Function.comp]

/-- Claim C1 witness: a cold cache, two concurrent callers, one fetch,
both resolved with the fetched token. -/
theorem installation_token_cache_coalesces_witness :
    (cacheRun 60000 ⟨.absent, 0, [], []⟩ (coalesceTrace 1 0 [(2, 5)]
        (CacheEvent.fulfill ⟨"abc", 3600000⟩))).fetchCount = 0 + 1 ∧
    (cacheRun 60000 ⟨.absent, 0, [], []⟩ (coalesceTrace 1 0 [(2, 5)]
        (CacheEvent.fulfill ⟨"abc", 3600000⟩))).resolvedAs =
      ((((1 : Nat), (0 : Int)) :: [(2, 5)]).map
        (fun p => (p.1, (⟨"abc", 3600000⟩ : AuthToken)))).reverse ++ [] ∧
    (cacheRun 60000 ⟨.absent, 0, [], []⟩ (coalesceTrace 1 0 [(2, 5)]
        (CacheEvent.fulfill ⟨"abc", 3600000⟩))).rejectedAs = [] ∧
    (cacheRun 60000 ⟨.absent, 0, [], []⟩ (coalesceTrace 1 0 [(2, 5)]
        (CacheEvent.fulfill ⟨"abc", 3600000⟩))).entry =
      .present ⟨"abc", 3600000⟩ :=
  installation_token_cache_coalesces 60000 ⟨.absent, 0, [], []⟩ 1 0
    [(2, 5)] ⟨"abc", 3600000⟩ (by decide)

/-- Claim C3: when the in-flight fetch for a cold entry rejects, every
coalesced caller is rejected with that same error, nothing is resolved,
no entry is cached for the key (the entry is absent afterwards), and a
subsequent call invokes `fetchFn` again. -/
theorem fetch_failure_propagates (margin : Int) (s₀ : CacheState)
    (c₀ : Nat) (now₀ : Int) (calls : List (Nat × Int)) (e : String)
    (c' : Nat) (now' : Int)
    (hcold : s₀.entry.isCold now₀ margin = true) :
    (cacheRun margin s₀ (coalesceTrace c₀ now₀ calls
        (CacheEvent.reject e))).rejectedAs =
      (((c₀, now₀) :: calls).map (fun p => (p.1, e))).reverse ++
        s₀.rejectedAs ∧
    (cacheRun margin s₀ (coalesceTrace c₀ now₀ calls
        (CacheEvent.reject e))).resolvedAs = s₀.resolvedAs ∧
    (cacheRun margin s₀ (coalesceTrace c₀ now₀ calls
        (CacheEvent.reject e))).entry = .absent ∧
    (cacheRun margin s₀ (coalesceTrace c₀ now₀ calls
        (CacheEvent.reject e))).fetchCount = s₀.fetchCount + 1 ∧
    (cacheStep margin (cacheRun margin s₀ (coalesceTrace c₀ now₀ calls
        (CacheEvent.reject e))) (.call c' now')).fetchCount =
      s₀.fetchCount + 2 := by
  have h₁ := cacheStep_cold margin s₀ c₀ now₀ hcold
  have h₂ := cacheRun_calls_pending margin calls
    { s₀ with entry := .pending [c₀], fetchCount := s₀.fetchCount + 1 }
    [c₀] rfl
  have key : cacheRun margin s₀ (coalesceTrace c₀ now₀ calls
      (CacheEvent.reject e)) =
      cacheStep margin (cacheRun margin
        (cacheStep margin s₀ (CacheEvent.call c₀ now₀))
        (calls.map (fun p => CacheEvent.call p.1 p.2)))
        (CacheEvent.reject e) := by
    simp only [coalesceTrace, List.map_cons, cacheRun, List.foldl_append,
      List.foldl_cons, List.foldl_nil]
  rw [key, h₁, h₂]
  refine ⟨?_, ?_, ?_, ?_, ?_⟩ <;>
    simp [cacheStep, List.map_reverse, List.map_map, Function.comp]

/-- Claim C3 witness: a cold cache, two concurrent callers, a rejected
fetch: both callers rejected, nothing cached, and a third caller
triggers a second fetch. -/
theorem fetch_failure_propagates_witness :
    (cacheRun 60000 ⟨.absent, 0, [], []⟩ (coalesceTrace 1 0 [(2, 5)]
        (CacheEvent.reject "boom"))).rejectedAs =
      ((((1 : Nat), (0 : Int)) :: [(2, 5)]).map
        (fun p => (p.1, "boom"))).reverse ++ [] ∧
    (cacheRun 60000 ⟨.absent, 0, [], []⟩ (coalesceTrace 1 0 [(2, 5)]
        (CacheEvent.reject "boom"))).resolvedAs = [] ∧
    (cacheRun 60000 ⟨.absent, 0, [], []⟩ (coalesceTrace 1 0 [(2, 5)]
        (CacheEvent.reject "boom"))).entry = .absent ∧
    (cacheRun 60000 ⟨.absent, 0, [], []⟩ (coalesceTrace 1 0 [(2, 5)]
        (CacheEvent.reject "boom"))).fetchCount = 0 + 1 ∧
    (cacheStep 60000 (cacheRun 60000 ⟨.absent, 0, [], []⟩
        (coalesceTrace 1 0 [(2, 5)] (CacheEvent.reject "boom")))
      (.call 3 7)).fetchCount = 0 + 2 :=
  fetch_failure_propagates 60000 ⟨.absent, 0, [], []⟩ 1 0 [(2, 5)]
    "boom" 3 7 (by decide)

/-- Claim C4: a GraphQL response whose errors include a rate-limit-type
entry rejects with the distinct rate-limited kind carrying the original
response — never the generic GraphQL error kind — regardless of any
other entries present. -/
theorem graphql_rate_limited {ρ : Type} (resp : ρ)
    (errors : List GraphQLErrorEntry)
    (hrl : ∃ err ∈ errors, err.type = some ("RATE_LIMITED")) :
    graphqlClassify resp (some errors) = .rateLimited resp ∧
    ∀ (msg : String) (es : List GraphQLErrorEntry),
      graphqlClassify resp (some errors) ≠ .graphQLError msg es := by
  obtain ⟨err, hmem, htype⟩ := hrl
  have hne : errors.length ≠ 0 := by
    cases errors with
    | nil => cases hmem
    | cons a l => simp
  have hany : errors.any
      (fun er => er.type == some ("RATE_LIMITED")) = true := by
    refine List.any_eq_true.mpr ⟨err, hmem, ?_⟩
    simp [htype]
  have hcls : graphqlClassify resp (some errors) = .rateLimited resp := by
    simp [graphqlClassify, hne, hany]
  exact ⟨hcls, fun msg es => by simp [hcls]⟩

/-- Claim C4 witness: a response with a rate-limit entry alongside a
different entry is classified as rate-limited. -/
theorem graphql_rate_limited_witness :
    graphqlClassify (0 : Nat)
        (some [⟨some ("SOME_OTHER"), "other"⟩,
          ⟨some ("RATE_LIMITED"), "limit hit"⟩]) =
      GraphqlOutcome.rateLimited 0 :=
  (graphql_rate_limited 0
    [⟨some ("SOME_OTHER"), "other"⟩, ⟨some ("RATE_LIMITED"), "limit hit"⟩]
    ⟨⟨some ("RATE_LIMITED"), "limit hit"⟩, by decide, rfl⟩).1

/-- Claim C6: a non-empty errors array without a rate-limit entry
rejects with the generic kind; the message is the first entry's message
alone when it is the only entry, and the first entry's message followed
by the count of the remaining entries when there are more. -/
theorem graphql_error_message_shape {ρ : Type} (resp : ρ)
    (e : GraphQLErrorEntry) (rest : List GraphQLErrorEntry)
    (hnorl : ∀ err ∈ e :: rest, err.type ≠ some ("RATE_LIMITED")) :
    graphqlClassify resp (some (e :: rest)) =
      .graphQLError
        (if rest = [] then e.message
        else e.message ++ " and " ++ toString rest.length ++ " more errors")
        (e :: rest) := by
  have hany : (e :: rest).any
      (fun er => er.type == some ("RATE_LIMITED")) = false := by
    refine List.any_eq_false.mpr ?_
    intro x hx
    simpa using hnorl x hx
  cases rest with
  | nil => simp [graphqlClassify, hany, graphqlErrorMessage]
  | cons f fs =>
    simp only [graphqlClassify, List.length_cons, Nat.succ_ne_zero,
      ne_eq, not_false_eq_true, if_true, hany, Bool.false_eq_true,
      if_false, graphqlErrorMessage, List.cons_ne_nil]
    simp [String.append_assoc]

/-- Claim C6 witness: three errors, none rate-limited: the message is
the first message annotated with the two remaining errors. -/
theorem graphql_error_message_shape_witness :
    graphqlClassify (0 : Nat)
        (some [⟨some ("SOME_KIND"), "boom"⟩, ⟨none, "b2"⟩, ⟨none, "b3"⟩]) =
      GraphqlOutcome.graphQLError ("boom and 2 more errors")
        [⟨some ("SOME_KIND"), "boom"⟩, ⟨none, "b2"⟩, ⟨none, "b3"⟩] := by
  have h := graphql_error_message_shape (0 : Nat)
    ⟨some ("SOME_KIND"), "boom"⟩ [⟨none, "b2"⟩, ⟨none, "b3"⟩] (by decide)
  simpa using h

/-- Claim C5: the retry policy of `getBranchesPage` and `getCommitsPage`:
a successful primary query is never retried; a primary failure that is a
recognized changedFiles error triggers exactly one retry with the
alternate query body, whose outcome (success or its own failure)
propagates as is with no further retry; any other failure triggers zero
retries and propagates immediately. -/
theorem changed_files_retry_policy {ρ ε : Type} (isCF : ε → Bool)
    (exec : QueryBody → Except ε ρ) :
    (∀ r, exec .withChangedFiles = .ok r →
      getPageWithRetry isCF exec = (.ok r, [.withChangedFiles])) ∧
    (∀ e, exec .withChangedFiles = .error e → isCF e = true →
      getPageWithRetry isCF exec =
        (exec .withoutChangedFiles,
          [.withChangedFiles, .withoutChangedFiles])) ∧
    (∀ e, exec .withChangedFiles = .error e → isCF e = false →
      getPageWithRetry isCF exec = (.error e, [.withChangedFiles])) := by
  refine ⟨?_, ?_, ?_⟩
  · intro r hr
    simp [getPageWithRetry, hr]
  · intro e he hcf
    simp [getPageWithRetry, he, hcf]
  · intro e he hcf
    simp [getPageWithRetry, he, hcf]

/-- Claim C5 witness: a primary query failing with a recognized
changedFiles error (modelled as error code 7) is retried once with the
alternate body and resolves to its result. -/
theorem changed_files_retry_policy_witness :
    getPageWithRetry (fun e => e == 7)
        (fun q => match q with
          | QueryBody.withChangedFiles => Except.error (7 : Nat)
          | QueryBody.withoutChangedFiles => Except.ok "page") =
      (Except.ok "page", [QueryBody.withChangedFiles,
        QueryBody.withoutChangedFiles]) := by
  have h := (changed_files_retry_policy (fun e => e == 7)
    (fun q => match q with
      | QueryBody.withChangedFiles => Except.error (7 : Nat)
      | QueryBody.withoutChangedFiles => Except.ok "page")).2.1 7 rfl rfl
  simpa using h

/-- Claim C7: the LRU store never holds more entries than the configured
capacity, and inserting a fresh key into a store at capacity evicts
exactly the least-recently-accessed entry (the last of the
recency-ordered list), keeping everything else. -/
theorem lru_capacity_and_eviction :
    (∀ (maxSize : Nat) (m : List (Nat × AuthToken)) (k : Nat)
      (v : AuthToken), (lruSet maxSize m k v).length ≤ maxSize) ∧
    (∀ (maxSize : Nat) (m : List (Nat × AuthToken)) (k : Nat)
      (v : AuthToken), 0 < maxSize → m.length = maxSize →
      (∀ p ∈ m, p.1 ≠ k) →
      lruSet maxSize m k v = (k, v) :: m.dropLast) := by
  constructor
  · intro maxSize m k v
    simp [lruSet]
  · intro maxSize m k v hpos hlen hfresh
    have hfilter : m.filter (fun p => p.1 != k) = m := by
      refine List.filter_eq_self.mpr ?_
      intro p hp
      simpa using hfresh p hp
    obtain ⟨n, rfl⟩ : ∃ n, maxSize = n + 1 := ⟨maxSize - 1, by omega⟩
    simp only [lruSet, hfilter, List.take_succ_cons]
    rw [List.dropLast_eq_take, hlen]
    simp

/-- Claim C7 witness: a capacity-two store holding keys 1 and 2 (key 1
most recently accessed) receives key 3: key 2, the least recently
accessed, is evicted. -/
theorem lru_capacity_and_eviction_witness :
    lruSet 2 [(1, ⟨"a", 10⟩), (2, ⟨"b", 20⟩)] 3 ⟨"c", 30⟩ =
      (3, ⟨"c", 30⟩) :: [(1, ⟨"a", 10⟩), (2, ⟨"b", 20⟩)].dropLast := by
  exact lru_capacity_and_eviction.2 2 [(1, ⟨"a", 10⟩), (2, ⟨"b", 20⟩)] 3
    ⟨"c", 30⟩ (by decide) (by decide) (by decide)

/-- Claim C8: installation-authenticated requests take their bearer
token from the installation token cache, whose fetch function first
obtains an app token from the holder, then POSTs to the token-exchange
endpoint with that app token as Bearer authorization and builds the
resulting `AuthToken` from the response's token string and `expires_at`
instant; app-authenticated requests attach the holder token directly. -/
theorem installation_auth_composition
    (net : ExchangeRequest → TokenExchangeResponse) (h : AppTokenHolder)
    (margin now : Int) (githubInstallationId : Nat) :
    ((installationAuthenticationHeaders net h margin now none
        githubInstallationId).1.authorization =
      "Bearer " ++
        (createInstallationToken net h now githubInstallationId).1.token) ∧
    ((createInstallationToken net h now githubInstallationId).2.1 =
      { method := "POST"
        path := "/app/installations/" ++ toString githubInstallationId ++
          "/access_tokens"
        headers :=
          { accept := "application/vnd.github.v3+json"
            authorization :=
              "Bearer " ++ (h.getAppToken now).1.token } }) ∧
    ((createInstallationToken net h now githubInstallationId).1 =
      { token := (net (createInstallationToken net h now
          githubInstallationId).2.1).token
        expiresAt := (net (createInstallationToken net h now
          githubInstallationId).2.1).expires_at }) ∧
    (∀ t : AuthToken, t.isAboutToExpire now margin = false →
      (installationAuthenticationHeaders net h margin now (some t)
          githubInstallationId).1.authorization = "Bearer " ++ t.token) ∧
    ((appAuthenticationHeaders h now).1.authorization =
      "Bearer " ++ (h.getAppToken now).1.token) := by
  refine ⟨rfl, rfl, rfl, ?_, rfl⟩
  intro t hx
  simp [installationAuthenticationHeaders, getInstallationTokenSeq, hx]

/-- Claim C8 witness: with a concrete network, holder and cached token
that is still valid, the attached bearer header is the cached token. -/
theorem installation_auth_composition_witness :
    (installationAuthenticationHeaders (fun _ => ⟨"itok", 99⟩)
        ⟨"42", "key", none⟩ 60000 0 (some ⟨"cached", 999999⟩)
        5).1.authorization = "Bearer " ++ "cached" :=
  (installation_auth_composition (fun _ => ⟨"itok", 99⟩)
    ⟨"42", "key", none⟩ 60000 0 5).2.2.2.1 ⟨"cached", 999999⟩ (by decide)

/-- A character list starts with `pat` exactly when it is `pat` followed
by some tail. -/
theorem listStartsWith_iff (pat s : List Char) :
    listStartsWith pat s = true ↔ ∃ t, s = pat ++ t := by
  induction pat generalizing s with
  | nil => simp [listStartsWith]
  | cons a pat ih =>
    cases s with
    | nil => simp [listStartsWith]
    | cons b s =>
      simp only [listStartsWith, Bool.and_eq_true, beq_iff_eq, ih,
        List.cons_append, List.cons.injEq]
      constructor
      · rintro ⟨hab, t, ht⟩
        exact ⟨t, hab.symm, ht⟩
      · rintro ⟨t, hab, ht⟩
        exact ⟨hab.symm, t, ht⟩

/-- A character list contains `pat` exactly when it splits as some
prefix, then `pat`, then some suffix. -/
theorem listContainsSeq_iff (pat s : List Char) :
    listContainsSeq pat s = true ↔ ∃ l r, s = l ++ pat ++ r := by
  induction s with
  | nil =>
    simp only [listContainsSeq, List.isEmpty_iff]
    constructor
    · rintro rfl
      exact ⟨[], [], rfl⟩
    · rintro ⟨l, r, hlr⟩
      rcases List.append_eq_nil.mp hlr.symm with ⟨h1, h2⟩
      exact (List.append_eq_nil.mp h1).2
  | cons b s ih =>
    simp only [listContainsSeq, Bool.or_eq_true, listStartsWith_iff, ih]
    constructor
    · rintro (⟨t, ht⟩ | ⟨l, r, hlr⟩)
      · exact ⟨[], t, by simpa using ht⟩
      · exact ⟨b :: l, r, by simp [hlr]⟩
    · rintro ⟨l, r, hlr⟩
      cases l with
      | nil => exact Or.inl ⟨r, by simpa using hlr⟩
      | cons x l =>
        right
        have hx : b = x ∧ s = l ++ pat ++ r := by simpa using hlr
        exact ⟨l, r, hx.2⟩

/-- Claim C9: the `hasNextPage` flag of `getRepositoriesPage` is true
exactly when the link header is present and contains the next-relation
marker, and it is a function of the link header alone — the payload
plays no role. -/
theorem has_next_page_from_link (resp : ReposPageResponse) :
    ((getRepositoriesPage resp).hasNextPage = true ↔
      ∃ l, resp.link = some l ∧
        ∃ a b, l.data = a ++ ("rel=\"next\"").data ++ b) ∧
    ∀ resp' : ReposPageResponse, resp'.link = resp.link →
      (getRepositoriesPage resp').hasNextPage =
        (getRepositoriesPage resp).hasNextPage := by
  constructor
  · cases hl : resp.link with
    | none => simp [getRepositoriesPage, hl]
    | some l =>
      simp only [getRepositoriesPage, hl, strIncludes, listContainsSeq_iff]
      constructor
      · rintro ⟨a, b, hab⟩
        exact ⟨l, rfl, a, b, hab⟩
      · rintro ⟨l', hl', a, b, hab⟩
        obtain rfl : l = l' := by injection hl'
        exact ⟨a, b, hab⟩
  · intro resp' hl
    simp [getRepositoriesPage, hl]

/-- Claim C9 witness: two responses sharing a link header containing the
next-relation marker but with different payloads have the same flag. -/
theorem has_next_page_from_link_witness :
    (getRepositoriesPage ⟨["r1"],
        some ("<https://host/page2>; rel=\"next\"")⟩).hasNextPage =
      (getRepositoriesPage ⟨[],
        some ("<https://host/page2>; rel=\"next\"")⟩).hasNextPage :=
  (has_next_page_from_link
    ⟨[], some ("<https://host/page2>; rel=\"next\"")⟩).2
    ⟨["r1"], some ("<https://host/page2>; rel=\"next\"")⟩ rfl

/-- Every value below sixteen maps to a decimal digit or one of the
letters a through f. -/
theorem hexDigit_isHex :
    ∀ n, n < 16 →
      (hexDigit n).isDigit ∨ ('a' ≤ hexDigit n ∧ hexDigit n ≤ 'f') := by
  decide

/-- Claim C10: `transformRepositoryId` returns the decimal repository id
when the transformer flag is disabled, when the base URL is undefined,
or when the base URL's prefix equals the GitHub cloud prefix; otherwise
it returns the prefix, a dash, and the decimal id. The prefix is at most
512 characters, each a lower-case hexadecimal digit. -/
theorem transform_repository_id_spec :
    (∀ (repositoryId : Nat) (u : Option ParsedUrl),
      transformRepositoryId false repositoryId u =
        toString repositoryId) ∧
    (∀ (flag : Bool) (repositoryId : Nat),
      transformRepositoryId flag repositoryId none =
        toString repositoryId) ∧
    (∀ (repositoryId : Nat) (u : ParsedUrl),
      calculatePrefix u = calculatePrefix githubCloudParsedUrl →
      transformRepositoryId true repositoryId (some u) =
        toString repositoryId) ∧
    (∀ (repositoryId : Nat) (u : ParsedUrl),
      calculatePrefix u ≠ calculatePrefix githubCloudParsedUrl →
      transformRepositoryId true repositoryId (some u) =
        calculatePrefix u ++ "-" ++ toString repositoryId) ∧
    (∀ u : ParsedUrl, (calculatePrefix u).length ≤ 512 ∧
      ∀ c ∈ (calculatePrefix u).data,
        c.isDigit ∨ ('a' ≤ c ∧ c ≤ 'f')) := by
  refine ⟨?_, ?_, ?_, ?_, ?_⟩
  · intro repositoryId u
    simp [transformRepositoryId]
  · intro flag repositoryId
    cases flag <;> simp [transformRepositoryId]
  · intro repositoryId u hequ
    simp [transformRepositoryId, hequ]
  · intro repositoryId u hnequ
    simp [transformRepositoryId, hnequ]
  · intro u
    constructor
    · show (List.take 512 _).length ≤ 512
      rw [List.length_take]
      omega
    · intro c hc
      have hc' : c ∈ hexEncode
          ((((u.host ++ u.pathname).data.map Char.toLower).filter
            Char.isAlphanum).map Char.toNat) :=
        List.mem_of_mem_take hc
      rcases List.mem_flatMap.mp hc' with ⟨bty, _, hcin⟩
      rcases List.mem_cons.mp hcin with hfst | hrest
      · subst hfst
        exact hexDigit_isHex _ (Nat.mod_lt _ (by omega))
      · rcases List.mem_cons.mp hrest with hsnd | hnil
        · subst hsnd
          exact hexDigit_isHex _ (Nat.mod_lt _ (by omega))
        · cases hnil

/-- Claim C10 witness: a GitHub Enterprise base URL gets the hex prefix;
the prefix of github.com equals itself, so cloud URLs do not. -/
theorem transform_repository_id_spec_witness :
    transformRepositoryId true 123 (some ⟨"ghes.example.com", "/"⟩) =
      calculatePrefix ⟨"ghes.example.com", "/"⟩ ++ "-" ++ toString 123 :=
  transform_repository_id_spec.2.2.2.1 123 ⟨"ghes.example.com", "/"⟩
    (by decide)

end GithubForJira
